import Mathlib

/-!
Shallow embedding of the lrc virtual machine (package `lrc`): the memory and
instruction data model and 32-bit encoding of `lrc/core.py`, the
fetch-decode-execute step of `lrc/interpreter.py`, the two-pass assembler of
`lrc/compiler.py`, and the polling output device of `lrc/device.py`.
Python's `assert` failures are modelled as named error values following the
condition each assert checks.
-/

namespace Lrc

/-- Decidable equality of Except values, so that concrete runs of the model
can be checked by evaluation. -/
instance {ε α : Type} [DecidableEq ε] [DecidableEq α] : DecidableEq (Except ε α) := fun x y =>
  match x, y with
  | .ok a, .ok b =>
    if h : a = b then isTrue (by rw [h])
    else isFalse (by intro hc; cases hc; exact h rfl)
  | .error e, .error f =>
    if h : e = f then isTrue (by rw [h])
    else isFalse (by intro hc; cases hc; exact h rfl)
  | .ok _, .error _ => isFalse (by intro hc; cases hc)
  | .error _, .ok _ => isFalse (by intro hc; cases hc)

/-- Runtime fault conditions.  `invalidAddress` and `valueOutOfRange` model the
two `assert` statements of `Memory.read`/`Memory.write` (core.py);
`unknownOpcode` models the `KeyError` of the interpreter's opcode-table lookup;
`segmentationFault` models the `SegmentationFault` exception of
`Interpreter.run`. -/
inductive Fault where
  | invalidAddress
  | valueOutOfRange
  | unknownOpcode
  | segmentationFault
  deriving DecidableEq, Repr

/-- Operand of core.py: a namedtuple of a 12-bit `value` and a `ref` bit. -/
structure Operand where
  value : Nat
  ref : Bool
  deriving DecidableEq, Repr

/-- Operand.MASK_REF = 2**12. -/
def MASK_REF : Nat := 2 ^ 12

/-- Operand.MASK_VAL = 2**12 - 1. -/
def MASK_VAL : Nat := 2 ^ 12 - 1

/-- Operand.__new__: value = data & MASK_VAL, ref = (data & MASK_REF != 0). -/
def OperandMk (data : Nat) : Operand :=
  ⟨data &&& MASK_VAL, data &&& MASK_REF != 0⟩

/-- Operand.__int__: the value, plus MASK_REF when the ref bit is set. -/
def operandInt (o : Operand) : Nat :=
  o.value + (if o.ref then MASK_REF else 0)

/-- The thirteen opcode classes of core.py. -/
inductive OpClass where
  | NUL | STA | LDA | INC | DEC | ADD | SUB | JMP | MOV | CMP | BRA | BRB | HLT
  deriving DecidableEq, Repr

/-- The MNEUMONIC class attribute of each opcode class. -/
def MNEUMONIC : OpClass → String
  | .NUL => "NUL"
  | .STA => "STA"
  | .LDA => "LDA"
  | .INC => "INC"
  | .DEC => "DEC"
  | .ADD => "ADD"
  | .SUB => "SUB"
  | .JMP => "JMP"
  | .MOV => "MOV"
  | .CMP => "CMP"
  | .BRA => "BRA"
  | .BRB => "BRB"
  | .HLT => "HLT"

/-- The OPCODE class attribute of each opcode class. -/
def OPCODE : OpClass → Nat
  | .NUL => 0
  | .STA => 1
  | .LDA => 2
  | .INC => 3
  | .DEC => 4
  | .ADD => 5
  | .SUB => 6
  | .JMP => 7
  | .MOV => 8
  | .CMP => 9
  | .BRA => 10
  | .BRB => 11
  | .HLT => 12

/-- An instance of an opcode class (the Opcode namedtuple of core.py): its
class, encoded value, and the `int()` of its two operands.  The `mneumonic`
and `opcode` namedtuple fields are determined by `cls` (see
`Instr.mneumonic`). -/
structure Instr where
  cls : OpClass
  value : Int
  lo : Int
  hi : Int
  deriving DecidableEq, Repr

/-- Opcode.__new__ (core.py): value = (OPCODE << 28) + (int(lo) << 14) + int(hi).
Python's shift of a possibly negative int is multiplication by the power of
two. -/
def mkOp (c : OpClass) (lo hi : Int) : Instr :=
  ⟨c, (OPCODE c : Int) * 2 ^ 28 + lo * 2 ^ 14 + hi, lo, hi⟩

/-- The mneumonic namedtuple field. -/
def Instr.mneumonic (i : Instr) : String := MNEUMONIC i.cls

/-- Memory.ADDR_REG: start of memory reserved for registers. -/
def ADDR_REG : Nat := 17

/-- Memory.ADDR_FLG: start of memory reserved for flags. -/
def ADDR_FLG : Nat := 25

/-- Memory.ADDR_PRG: start of memory reserved for programs. -/
def ADDR_PRG : Nat := 33

/-- Memory (core.py): the `_ram` dict, modelled as an association list where a
write prepends its entry (so a lookup finds the latest write), and the mutable
program counter `ptr` (an arbitrary Python int, hence `Int`). -/
structure Memory where
  ram : List (Nat × Nat)
  ptr : Int
  deriving DecidableEq, Repr

/-- Memory.__init__: empty ram, ptr = Memory.ADDR_PRG. -/
def Memory.init : Memory := ⟨[], 33⟩

/-- Lookup of an address among the written entries (dict access on `_ram`). -/
def ramLookup : List (Nat × Nat) → Nat → Option Nat
  | [], _ => none
  | (k, v) :: rest, i => if k = i then some v else ramLookup rest i

/-- Memory.read for a non-negative index: the written value, or 0 when the
index was never written (`self._ram[index] if index in self._ram else 0`). -/
def memRead (m : Memory) (index : Nat) : Nat :=
  (ramLookup m.ram index).getD 0

/-- Memory.read including its `assert 0 <= index`. -/
def memReadI (m : Memory) (index : Int) : Except Fault Nat :=
  if index < 0 then .error .invalidAddress
  else .ok (memRead m index.toNat)

/-- Memory.__len__: max written index + 1, or 0 when nothing was written. -/
def memLen (m : Memory) : Nat :=
  match m.ram with
  | [] => 0
  | _ => (m.ram.map Prod.fst).foldr max 0 + 1

/-- Memory.write: `assert 0 <= index` (fails as `invalidAddress`), then
`assert 0 <= value < 2**32` (fails as `valueOutOfRange`), then stores. -/
def memWrite (m : Memory) (index value : Int) : Except Fault Memory :=
  if index < 0 then .error .invalidAddress
  else if value < 0 ∨ (2 ^ 32 : Int) ≤ value then .error .valueOutOfRange
  else .ok { m with ram := (index.toNat, value.toNat) :: m.ram }

/-- Memory.read_eax: read of ADDR_REG. -/
def readEax (m : Memory) : Nat := memRead m ADDR_REG

/-- Result of executing one instruction: a new memory, the Terminate signal
raised by HLT, or a fault. -/
inductive ExecResult where
  | ok (m : Memory)
  | term
  | fault (e : Fault)
  deriving DecidableEq, Repr

/-- The execute methods of the non-HLT opcode classes of core.py, with
`Memory.write` failures propagated. -/
def execNonHalt (c : OpClass) (lo hi : Int) (m : Memory) : Except Fault Memory :=
  match c with
  | .NUL => .ok m
  | .STA => memWrite m lo (readEax m : Int)
  | .LDA => memWrite m (ADDR_REG : Int) lo
  | .INC => do
      let val ← memReadI m lo
      memWrite m lo ((val : Int) + 1)
  | .DEC => do
      let val ← memReadI m lo
      memWrite m lo ((val : Int) - 1)
  | .ADD => do
      let a ← memReadI m lo
      let b ← memReadI m hi
      memWrite m lo (((a + b) % 2 ^ 16 : Nat) : Int)
  | .SUB => do
      let a ← memReadI m lo
      memWrite m lo (((a : Int) - hi) % 2 ^ 16)
  | .JMP => .ok { m with ptr := lo - 1 }
  | .MOV => do
      let v ← memReadI m hi
      memWrite m lo (v : Int)
  | .CMP => do
      let a ← memReadI m lo
      let b ← memReadI m hi
      memWrite m (ADDR_FLG : Int) (if a < b then 1 else 0)
  | .BRA => if memRead m ADDR_FLG = 0 then .ok { m with ptr := lo - 1 } else .ok m
  | .BRB => if memRead m ADDR_FLG = 1 then .ok { m with ptr := lo - 1 } else .ok m
  | .HLT => .ok m

/-- Opcode.execute dispatched on the instruction's class; Halt.execute raises
Terminate. -/
def Instr.execute (i : Instr) (m : Memory) : ExecResult :=
  match i.cls with
  | .HLT => .term
  | c =>
    match execNonHalt c i.lo i.hi m with
    | .ok m' => .ok m'
    | .error e => .fault e

/-- Interpreter.__init__: the dict from OPCODE to opcode class, covering the
thirteen classes. -/
def opcodeTable (n : Nat) : Option OpClass :=
  match n with
  | 0 => some .NUL
  | 1 => some .STA
  | 2 => some .LDA
  | 3 => some .INC
  | 4 => some .DEC
  | 5 => some .ADD
  | 6 => some .SUB
  | 7 => some .JMP
  | 8 => some .MOV
  | 9 => some .CMP
  | 10 => some .BRA
  | 11 => some .BRB
  | 12 => some .HLT
  | _ => none

/-- Interpreter.interpret (interpreter.py): decode a fetched word into an
instruction via mask_in, mask_lo, mask_hi; a decoded opcode value with no
table entry is the fatal `KeyError` decode fault. -/
def interpret (data : Nat) : Except Fault Instr :=
  let mask_in : Nat := 2 ^ 32 - 2 ^ 28
  let mask_lo : Nat := 2 ^ 28 - 2 ^ 14
  let mask_hi : Nat := 2 ^ 14 - 2 ^ 0
  let lo := OperandMk ((data &&& mask_lo) >>> 14)
  let hi := OperandMk (data &&& mask_hi)
  let ins := (data &&& mask_in) >>> 28
  match opcodeTable ins with
  | some c => .ok (mkOp c (operandInt lo : Int) (operandInt hi : Int))
  | none => .error .unknownOpcode

/-- The fetch and decode part of one tick: `self.interpret(memory.read(memory.ptr))`. -/
def fetchDecode (m : Memory) : Except Fault Instr :=
  match memReadI m m.ptr with
  | .error e => .error e
  | .ok data => interpret data

/-- Outcome of one tick of Interpreter.run: schedule the next tick, stop
cleanly on Terminate, or stop on a fault. -/
inductive TickResult where
  | next (m : Memory)
  | terminate
  | fault (e : Fault)
  deriving DecidableEq, Repr

/-- One tick of Interpreter.run: fetch, decode, execute, increment ptr, then
`if memory.ptr > len(memory): raise SegmentationFault()`, else schedule the
next tick.  Terminate (from HLT) stops the loop cleanly before the increment
and bounds check. -/
def tick (m : Memory) : TickResult :=
  match fetchDecode m with
  | .error e => .fault e
  | .ok i =>
    match i.execute m with
    | .term => .terminate
    | .fault e => .fault e
    | .ok m1 =>
      let m2 : Memory := { m1 with ptr := m1.ptr + 1 }
      if (memLen m2 : Int) < m2.ptr then .fault .segmentationFault
      else .next m2

/-- Executing `INC addr` then `DEC addr` (two consecutive execute steps on the
same address), stopping at the first fault. -/
def incThenDec (m : Memory) (addr : Int) : ExecResult :=
  match (mkOp .INC addr 0).execute m with
  | .ok m1 => (mkOp .DEC addr 0).execute m1
  | r => r

/-- Failure of the device's flush: Python's `chr` raises ValueError for a code
point at or above 0x110000. -/
inductive DeviceError where
  | valueError
  deriving DecidableEq, Repr

/-- Python `chr` at the level of code points: defined for values below
0x110000 = 1114112, a ValueError otherwise. -/
def pyChr (v : Nat) : Except DeviceError Nat :=
  if v < 1114112 then .ok v else .error .valueError

/-- TerminalStdout.flush: `sys.stdout.write(''.join(map(chr, self.buf)))`.
The emitted string is modelled as its list of code points; `chr` fails on the
first value outside the Unicode range. -/
def pyFlush : List Nat → Except DeviceError (List Nat)
  | [] => .ok []
  | v :: rest =>
    match pyChr v with
    | .error e => .error e
    | .ok c =>
      match pyFlush rest with
      | .error e => .error e
      | .ok cs => .ok (c :: cs)

/-- One poll of TerminalStdout.listen (device.py): read address 0; if nonzero,
buffer the value and write 0 back to address 0; the `finally` clause flushes
the buffer.  The early `call_soon(self.flush)` only schedules a second flush of
the by-then empty buffer, so one poll emits exactly the buffered values.  The
`memory.write(0, 0)` call cannot fail its asserts (both arguments are 0); the
error arm is unreachable and keeps the model total. -/
def listenPoll (m : Memory) : Memory × Except DeviceError (List Nat) :=
  let val := memRead m 0
  if val ≠ 0 then
    match memWrite m 0 0 with
    | .ok m2 => (m2, pyFlush [val])
    | .error _ => (m, pyFlush [val])
  else (m, pyFlush [])

/-- Characters Python's str.strip removes. -/
def isPySpace (c : Char) : Bool :=
  c = ' ' || c = '\t' || c = '\n' || c = '\r' || c = '\x0b' || c = '\x0c'

/-- Python str.strip: drop leading and trailing whitespace. -/
def stripChars (l : List Char) : List Char :=
  ((l.dropWhile isPySpace).reverse.dropWhile isPySpace).reverse

/-- Python str.splitlines for newline-delimited text: no empty final line for a
trailing newline (program files use the \n line boundary). -/
def splitlinesChar : List Char → List (List Char)
  | [] => []
  | '\n' :: cs => [] :: splitlinesChar cs
  | c :: cs =>
    match splitlinesChar cs with
    | [] => [[c]]
    | line :: rest => (c :: line) :: rest

/-- Compiler.is_comment: the empty line, or a line starting with '#'.  Note it
is applied to the raw (unstripped) line. -/
def isCommentLine : List Char → Bool
  | [] => true
  | c :: _ => c = '#'

/-- Compiler.prepare: keep the lines that are not comments, then strip each. -/
def prepare (p : List Char) : List (List Char) :=
  ((splitlinesChar p).filter (fun l => !isCommentLine l)).map stripChars

/-- The character class [-_0-9a-zA-Z] of the label regex. -/
def isIdentChar (c : Char) : Bool :=
  c = '-' || c = '_' || c.isDigit || c.isAlpha

/-- After the leading letter, the regex consumes a run of [-_0-9a-zA-Z] and
then requires ':' (the class excludes ':', so the greedy run is exact). -/
def labelTail : List Char → Bool
  | [] => false
  | c :: rest => if c = ':' then true else if isIdentChar c then labelTail rest else false

/-- Compiler.is_label: re.match of '^[a-zA-Z][-_0-9a-zA-Z]*:' (a prefix match,
so trailing text after the colon is allowed). -/
def isLabelLine : List Char → Bool
  | [] => false
  | c :: rest => c.isAlpha && labelTail rest

/-- Compiler.parse_label: `line[:line.find(':')]`, the characters before the
first colon (which exists on every label line). -/
def parseLabel (l : List Char) : List Char :=
  l.takeWhile (fun c => c ≠ ':')

/-- Python dict lookup, for dicts keyed by strings (label table and mnemonic
table); entries are inserted at the back and keys are unique at insertion. -/
def assocLookup {β : Type} : List (List Char × β) → List Char → Option β
  | [], _ => none
  | (k, v) :: rest, n => if k = n then some v else assocLookup rest n

/-- Compiler.__init__: the dict from MNEUMONIC to opcode class. -/
def mnemTable : List (List Char × OpClass) :=
  [("LDA".data, .LDA), ("STA".data, .STA), ("INC".data, .INC), ("DEC".data, .DEC),
   ("ADD".data, .ADD), ("SUB".data, .SUB), ("JMP".data, .JMP), ("MOV".data, .MOV),
   ("CMP".data, .CMP), ("BRA".data, .BRA), ("BRB".data, .BRB), ("NUL".data, .NUL),
   ("HLT".data, .HLT)]

/-- Compiler.is_opcode: `line[:3] in self._opcodes and (not line[3:] or line[3] == ' ')`. -/
def isOpcodeLine (l : List Char) : Bool :=
  (assocLookup mnemTable (l.take 3)).isSome &&
    (match l.drop 3 with
     | [] => true
     | c :: _ => c = ' ')

/-- Assembly failures.  `duplicateLabel` models the `assert label not in labels`
of find_labels; `unrecognizedInstruction` is the exception of compile carrying
the offending line; `nameError` and `syntaxError` model the failure of
Python's `eval` on an operand (undefined name, or an expression outside the
modelled fragment); `keyError` models the dict lookup in parse_opcode, which
is unreachable when is_opcode held. -/
inductive CompileError where
  | duplicateLabel (name : List Char)
  | unrecognizedInstruction (line : List Char)
  | nameError (name : List Char)
  | syntaxError (text : List Char)
  | keyError (mneu : List Char)
  deriving DecidableEq, Repr

/-- Identifier shape for Python source text: a letter or underscore, then
letters, digits or underscores (a hyphen is not part of an identifier, so a
hyphenated label name is parsed as a subtraction, not a name).  Shape alone
does not make a resolvable name: reserved keywords have this shape but `eval`
never resolves them from the locals dict — see `isPyName`. -/
def isPyIdent (l : List Char) : Bool :=
  match l with
  | [] => false
  | c :: cs => (c.isAlpha || c = '_') && cs.all (fun d => d.isAlpha || d.isDigit || d = '_')

/-- The reserved keywords of Python 3 (keyword.kwlist).  `eval` raises
SyntaxError when one is used as an expression (except the constants True,
False and None, which denote fixed values); none of them is ever looked up in
the locals dict. -/
def pyKeywords : List (List Char) :=
  ["False".data, "None".data, "True".data, "and".data, "as".data, "assert".data,
   "async".data, "await".data, "break".data, "class".data, "continue".data,
   "def".data, "del".data, "elif".data, "else".data, "except".data,
   "finally".data, "for".data, "from".data, "global".data, "if".data,
   "in".data, "import".data, "is".data, "lambda".data, "nonlocal".data,
   "not".data, "or".data, "pass".data, "raise".data, "return".data,
   "try".data, "while".data, "with".data, "yield".data]

/-- A name that Python's `eval` resolves in the locals dict: identifier-shaped
and not a reserved keyword. -/
def isPyName (l : List Char) : Bool :=
  isPyIdent l && !decide (l ∈ pyKeywords)

/-- Value of a run of decimal digits. -/
def digitsVal (l : List Char) : Nat :=
  l.foldl (fun a c => a * 10 + (c.toNat - 48)) 0

/-- Modelled from the source's `eval(part, None, labels)` (parse_opcode):
Python's general expression evaluator, modelled for the fragment the assembler
language exercises — unsigned decimal integer literals; the keyword constants
True and False, which eval folds to the values the instruction constructor's
int() turns into 1 and 0 without consulting the label table; and bare
non-keyword identifiers resolved in the label table, where an undefined name
is a NameError.  A reserved keyword used as a name is a SyntaxError and is
never resolved from the label table (None evaluates to the None object and
the instruction constructor's int() then raises TypeError; the model reports
that failure at evaluation).  Any other expression — arithmetic operators,
non-ASCII names and the rest of Python — is outside the fragment and modelled
as an evaluation failure, matching that such operand text does not, in
general, evaluate to a defined label's address. -/
def evalExpr (labels : List (List Char × Nat)) (s : List Char) : Except CompileError Int :=
  let t := stripChars s
  if !t.isEmpty && t.all Char.isDigit then .ok (digitsVal t : Int)
  else if t = "True".data then .ok 1
  else if t = "False".data then .ok 0
  else if isPyName t then
    match assocLookup labels t with
    | some a => .ok (a : Int)
    | none => .error (.nameError t)
  else .error (.syntaxError t)

/-- Python str.split on a separator character: every occurrence splits, empty
pieces are kept. -/
def splitOnChar (sep : Char) : List Char → List (List Char)
  | [] => [[]]
  | c :: cs =>
    match splitOnChar sep cs with
    | [] => [[c]]
    | part :: parts => if c = sep then [] :: part :: parts else (c :: part) :: parts

/-- Compiler.parse_opcode: mneumonic = line[:3], arguments = line[3:].strip();
lo defaults to 0 and is assigned from the first comma-separated part when the
argument text is nonempty; hi defaults to 0 and is assigned only when there
are exactly two parts. -/
def parseOpcode (labels : List (List Char × Nat)) (line : List Char) : Except CompileError Instr :=
  let mneu := line.take 3
  let arguments := stripChars (line.drop 3)
  match assocLookup mnemTable mneu with
  | none => .error (.keyError mneu)
  | some c =>
    if arguments.isEmpty then .ok (mkOp c 0 0)
    else
      match splitOnChar ',' arguments with
      | [] => .ok (mkOp c 0 0)
      | [p0] =>
        match evalExpr labels p0 with
        | .error e => .error e
        | .ok lo => .ok (mkOp c lo 0)
      | [p0, p1] =>
        match evalExpr labels p0 with
        | .error e => .error e
        | .ok lo =>
          match evalExpr labels p1 with
          | .error e => .error e
          | .ok hi => .ok (mkOp c lo hi)
      | p0 :: _ :: _ :: _ =>
        match evalExpr labels p0 with
        | .error e => .error e
        | .ok lo => .ok (mkOp c lo 0)

/-- Loop body of Compiler.find_labels: each label line maps its name to
`index + Memory.ADDR_PRG`, where index counts the filtered lines; a name
already present fails the `assert label not in labels`. -/
def findLabelsAux : Nat → List (List Char × Nat) → List (List Char) →
    Except CompileError (List (List Char × Nat))
  | _, acc, [] => .ok acc
  | index, acc, l :: ls =>
    if isLabelLine l then
      let name := parseLabel l
      if (assocLookup acc name).isSome then .error (.duplicateLabel name)
      else findLabelsAux (index + 1) (acc ++ [(name, index + ADDR_PRG)]) ls
    else findLabelsAux (index + 1) acc ls

/-- Compiler.find_labels over the filtered lines. -/
def findLabels (lines : List (List Char)) : Except CompileError (List (List Char × Nat)) :=
  findLabelsAux 0 [] lines

/-- Loop of Compiler.compile over the filtered lines: a label line compiles to
`Null(lo=0, hi=0)`; an opcode line is parsed; anything else raises
UnrecognizedInstruction with the line. -/
def compileLines (labels : List (List Char × Nat)) : List (List Char) →
    Except CompileError (List Instr)
  | [] => .ok []
  | l :: ls =>
    if isLabelLine l then
      match compileLines labels ls with
      | .ok rest => .ok (mkOp .NUL 0 0 :: rest)
      | .error e => .error e
    else if isOpcodeLine l then
      match parseOpcode labels l with
      | .error e => .error e
      | .ok op =>
        match compileLines labels ls with
        | .ok rest => .ok (op :: rest)
        | .error e => .error e
    else .error (.unrecognizedInstruction l)

/-- Compiler.compile: prepare, find_labels, then compile each line. -/
def compile (p : List Char) : Except CompileError (List Instr) :=
  let lines := prepare p
  match findLabels lines with
  | .error e => .error e
  | .ok labels => compileLines labels lines

/-! ## Helper lemmas -/

theorem operand_ref_testBit (d : Nat) : (OperandMk d).ref = d.testBit 12 := by
  show (d &&& MASK_REF != 0) = d.testBit 12
  unfold MASK_REF
  rw [Nat.and_two_pow d 12]
  rcases h : d.testBit 12 with _ | _ <;> simp [h]

theorem operandInt_OperandMk (d : Nat) : operandInt (OperandMk d) = d % 2 ^ 13 := by
  have htb : d.testBit 12 = decide (d / 2 ^ 12 % 2 = 1) := Nat.testBit_to_div_mod
  have hv : (OperandMk d).value = d % 2 ^ 12 := Nat.and_pow_two_sub_one_eq_mod d 12
  show (OperandMk d).value + (if (OperandMk d).ref then MASK_REF else 0) = d % 2 ^ 13
  rw [hv, operand_ref_testBit]
  have e1 : (2 : Nat) ^ 12 = 4096 := by norm_num
  have e2 : (2 : Nat) ^ 13 = 8192 := by norm_num
  rcases h : d.testBit 12 with _ | _
  · rw [h] at htb
    have hd4 : d / 4096 % 2 = 0 := by
      rw [← e1]
      have := of_decide_eq_false htb.symm
      omega
    simp only [Bool.false_eq_true, if_false]
    rw [e1, e2]
    omega
  · rw [h] at htb
    have hd4 : d / 4096 % 2 = 1 := by
      rw [← e1]
      exact of_decide_eq_true htb.symm
    simp only [if_true]
    unfold MASK_REF
    rw [e1, e2]
    omega

theorem memReadI_natCast (m : Memory) (i : Nat) : memReadI m (i : Int) = .ok (memRead m i) := by
  unfold memReadI
  rw [if_neg (by omega)]
  simp

theorem memWrite_ok (m : Memory) (i : Nat) (v : Int) (h0 : 0 ≤ v) (h1 : v < 2 ^ 32) :
    memWrite m (i : Int) v = .ok { m with ram := (i, v.toNat) :: m.ram } := by
  unfold memWrite
  rw [if_neg (by omega), if_neg (by omega)]
  simp

theorem memRead_cons_self (r : List (Nat × Nat)) (p : Int) (i v : Nat) :
    memRead ⟨(i, v) :: r, p⟩ i = v := by
  simp [memRead, ramLookup]

theorem memRead_cons_ne (r : List (Nat × Nat)) (p q : Int) (i j v : Nat) (h : i ≠ j) :
    memRead ⟨(i, v) :: r, p⟩ j = memRead ⟨r, q⟩ j := by
  simp [memRead, ramLookup, h]

theorem ok_bind {ε α β : Type} (a : α) (f : α → Except ε β) :
    (Except.ok a : Except ε α) >>= f = f a := rfl

/-! ## C9: Operand construction keeps the low 13 bits -/

/-- C9: constructing an Operand from a non-negative integer d keeps only the
low 13 bits: the value is d mod 2^12, the ref flag is bit 12 of d, the integer
conversion returns d mod 2^13, and that conversion is idempotent. -/
theorem operand_keeps_low_13_bits (d : Nat) :
    (OperandMk d).value = d % 2 ^ 12 ∧
    (OperandMk d).ref = d.testBit 12 ∧
    operandInt (OperandMk d) = d % 2 ^ 13 ∧
    operandInt (OperandMk (operandInt (OperandMk d))) = operandInt (OperandMk d) := by
  refine ⟨Nat.and_pow_two_sub_one_eq_mod d 12, operand_ref_testBit d,
    operandInt_OperandMk d, ?_⟩
  simp only [operandInt_OperandMk]
  have e2 : (2 : Nat) ^ 13 = 8192 := by norm_num
  rw [e2]
  omega

/-! ## C3: out-of-range writes are rejected -/

/-- C3: for every non-negative address and every value outside [0, 2^32),
Memory.write fails with the invalid-address or value-out-of-range failure
(the two asserts of Memory.write), and nothing is stored. -/
theorem write_out_of_range_rejected (m : Memory) (addr v : Int)
    (haddr : 0 ≤ addr) (hv : v < 0 ∨ (2 ^ 32 : Int) ≤ v) :
    (memWrite m addr v = .error .invalidAddress ∨
      memWrite m addr v = .error .valueOutOfRange) ∧
    ∀ m', memWrite m addr v ≠ .ok m' := by
  unfold memWrite
  rw [if_neg (by omega), if_pos hv]
  exact ⟨Or.inr rfl, fun m' h => by cases h⟩

/-- Witness for C3 at address 0 and value 2^32 on a fresh memory. -/
theorem write_out_of_range_rejected_witness :
    memWrite Memory.init 0 (2 ^ 32) = .error .invalidAddress ∨
      memWrite Memory.init 0 (2 ^ 32) = .error .valueOutOfRange :=
  (write_out_of_range_rejected Memory.init 0 (2 ^ 32) (by norm_num)
    (Or.inr (by norm_num))).1

/-! ## C4: ADD and SUB wrap modulo 2^16, SUB subtracts the literal hi -/

theorem execute_ADD (m : Memory) (lo hi : Nat) :
    (mkOp .ADD (lo : Int) (hi : Int)).execute m =
      .ok { m with ram := (lo, (memRead m lo + memRead m hi) % 2 ^ 16) :: m.ram } := by
  have hlt : ((memRead m lo + memRead m hi) % 2 ^ 16 : Nat) < 2 ^ 32 :=
    lt_of_lt_of_le (Nat.mod_lt _ (by norm_num)) (by norm_num)
  have ha := memReadI_natCast m lo
  have hb := memReadI_natCast m hi
  simp only [Instr.execute, mkOp, execNonHalt, ha, hb, ok_bind]
  rw [memWrite_ok _ _ _ (Int.natCast_nonneg _) (by exact_mod_cast hlt)]
  simp
  omega

theorem execute_SUB (m : Memory) (lo hi : Nat) :
    (mkOp .SUB (lo : Int) (hi : Int)).execute m =
      .ok { m with
        ram := (lo, (((memRead m lo : Int) - hi) % 2 ^ 16).toNat) :: m.ram } := by
  have h0 : (0 : Int) ≤ ((memRead m lo : Int) - hi) % 2 ^ 16 :=
    Int.emod_nonneg _ (by norm_num)
  have hlt : ((memRead m lo : Int) - hi) % 2 ^ 16 < 2 ^ 32 :=
    lt_of_lt_of_le (Int.emod_lt_of_pos _ (by norm_num)) (by norm_num)
  have ha := memReadI_natCast m lo
  simp only [Instr.execute, mkOp, execNonHalt, ha, ok_bind]
  rw [memWrite_ok _ _ _ h0 hlt]

/-- C4: ADD stores (mem[lo] + mem[hi]) mod 2^16 into mem[lo]; SUB stores
(mem[lo] - hi) mod 2^16 into mem[lo], subtracting the literal operand hi, not
mem[hi]; and in particular mem[lo]=65535, mem[hi]=2 followed by ADD lo,hi
yields mem[lo]=1. -/
theorem add_sub_wrap_mod_2_16 (m : Memory) (lo hi : Nat) :
    ((mkOp .ADD (lo : Int) (hi : Int)).execute m =
        .ok { m with ram := (lo, (memRead m lo + memRead m hi) % 2 ^ 16) :: m.ram } ∧
      memRead { m with ram := (lo, (memRead m lo + memRead m hi) % 2 ^ 16) :: m.ram } lo =
        (memRead m lo + memRead m hi) % 2 ^ 16) ∧
    ((mkOp .SUB (lo : Int) (hi : Int)).execute m =
        .ok { m with
          ram := (lo, (((memRead m lo : Int) - hi) % 2 ^ 16).toNat) :: m.ram } ∧
      (memRead { m with
          ram := (lo, (((memRead m lo : Int) - hi) % 2 ^ 16).toNat) :: m.ram } lo : Int) =
        ((memRead m lo : Int) - (hi : Int)) % 2 ^ 16) ∧
    ((mkOp .ADD (40 : Int) (41 : Int)).execute ⟨[(40, 65535), (41, 2)], 33⟩ =
        .ok ⟨[(40, 1), (40, 65535), (41, 2)], 33⟩ ∧
      memRead ⟨[(40, 1), (40, 65535), (41, 2)], 33⟩ 40 = 1) := by
  refine ⟨⟨execute_ADD m lo hi, ?_⟩, ⟨execute_SUB m lo hi, ?_⟩, by decide⟩
  · show memRead ⟨(lo, (memRead m lo + memRead m hi) % 2 ^ 16) :: m.ram, m.ptr⟩ lo = _
    exact memRead_cons_self m.ram m.ptr lo _
  · show (memRead ⟨(lo, (((memRead m lo : Int) - hi) % 2 ^ 16).toNat) :: m.ram, m.ptr⟩ lo : Int) = _
    rw [memRead_cons_self m.ram m.ptr lo _]
    exact Int.toNat_of_nonneg (Int.emod_nonneg _ (by norm_num))

/-! ## C5: INC then DEC (corrected: INC faults at mem[addr] = 2^32 - 1) -/

/-- Counterexample to C5 as stated: with mem[addr] = 2^32 - 1, executing INC
faults (its write of 2^32 fails the value assert), so the INC-then-DEC
sequence does not complete and there is no resulting state at all. -/
theorem inc_dec_counterexample :
    incThenDec ⟨[(5, 2 ^ 32 - 1)], 33⟩ 5 = .fault .valueOutOfRange ∧
    ¬ ∃ m2, incThenDec ⟨[(5, 2 ^ 32 - 1)], 33⟩ 5 = .ok m2 ∧
        memRead m2 5 = memRead ⟨[(5, 2 ^ 32 - 1)], 33⟩ 5 := by
  have h : incThenDec ⟨[(5, 2 ^ 32 - 1)], 33⟩ 5 = .fault .valueOutOfRange := by decide
  refine ⟨h, ?_⟩
  rintro ⟨m2, hm, -⟩
  rw [h] at hm
  cases hm

/-- C5 (amended): for every memory state with mem[addr] + 1 < 2^32, executing
INC addr followed by DEC addr succeeds and leaves mem[addr] unchanged. -/
theorem inc_then_dec_unchanged (m : Memory) (addr : Nat)
    (h : memRead m addr + 1 < 2 ^ 32) :
    incThenDec m (addr : Int) =
      .ok ⟨(addr, memRead m addr) :: (addr, memRead m addr + 1) :: m.ram, m.ptr⟩ ∧
    memRead ⟨(addr, memRead m addr) :: (addr, memRead m addr + 1) :: m.ram, m.ptr⟩ addr =
      memRead m addr := by
  have ha := memReadI_natCast m addr
  have hw1 : memWrite m (addr : Int) ((memRead m addr : Int) + 1) =
      .ok ⟨(addr, memRead m addr + 1) :: m.ram, m.ptr⟩ := by
    rw [memWrite_ok _ _ _ (by positivity) (by exact_mod_cast h)]
    norm_num
  have hinc : (mkOp .INC (addr : Int) 0).execute m =
      .ok ⟨(addr, memRead m addr + 1) :: m.ram, m.ptr⟩ := by
    simp only [Instr.execute, mkOp, execNonHalt, ha, ok_bind, hw1]
  have ha2 := memReadI_natCast ⟨(addr, memRead m addr + 1) :: m.ram, m.ptr⟩ addr
  rw [memRead_cons_self] at ha2
  have hcast : ((memRead m addr + 1 : Nat) : Int) - 1 = ((memRead m addr : Nat) : Int) := by
    push_cast
    ring
  have hw2 : memWrite ⟨(addr, memRead m addr + 1) :: m.ram, m.ptr⟩ (addr : Int)
        (((memRead m addr + 1 : Nat) : Int) - 1) =
      .ok ⟨(addr, memRead m addr) :: (addr, memRead m addr + 1) :: m.ram, m.ptr⟩ := by
    rw [memWrite_ok _ _ _ (by push_cast; omega) (by push_cast; omega)]
    rw [hcast, Int.toNat_natCast]
  have hdec : (mkOp .DEC (addr : Int) 0).execute ⟨(addr, memRead m addr + 1) :: m.ram, m.ptr⟩ =
      .ok ⟨(addr, memRead m addr) :: (addr, memRead m addr + 1) :: m.ram, m.ptr⟩ := by
    simp only [Instr.execute, mkOp, execNonHalt, ha2, ok_bind, hw2]
  constructor
  · unfold incThenDec
    rw [hinc]
    exact hdec
  · exact memRead_cons_self _ _ addr _

/-- Witness for the amended C5 at mem = [(5, 7)], addr = 5. -/
theorem inc_then_dec_unchanged_witness :
    incThenDec ⟨[(5, 7)], 33⟩ ((5 : Nat) : Int) = .ok ⟨[(5, 7), (5, 8), (5, 7)], 33⟩ :=
  (inc_then_dec_unchanged ⟨[(5, 7)], 33⟩ 5 (by decide)).1

/-! ## C2: encode/decode round trip (corrected: only the low 13 operand bits
survive decoding) -/

theorem and_shiftRight_distrib (x y n : Nat) :
    (x &&& y) >>> n = (x >>> n) &&& (y >>> n) := by
  apply Nat.eq_of_testBit_eq
  intro i
  simp [Nat.testBit_shiftRight, Nat.testBit_and]

theorem opcodeTable_OPCODE (c : OpClass) : opcodeTable (OPCODE c) = some c := by
  cases c <;> rfl

theorem OPCODE_le_12 (c : OpClass) : OPCODE c ≤ 12 := by
  cases c <;> simp [OPCODE]

/-- Counterexample to C2 as stated: the assembler accepts `SUB 8192,0` and
builds the instruction with lo = 8192, whose encoded value decodes back with
lo = 0: bit 13 of the 14-bit operand field is dropped by the Operand
constructor, so decoding does not reproduce the original operand. -/
theorem roundtrip_counterexample :
    compile "SUB 8192,0".data = .ok [mkOp .SUB 8192 0] ∧
    interpret ((mkOp .SUB 8192 0).value.toNat) = .ok (mkOp .SUB 0 0) ∧
    interpret ((mkOp .SUB 8192 0).value.toNat) ≠ .ok (mkOp .SUB 8192 0) := by
  refine ⟨by decide, by decide, ?_⟩
  intro h
  rw [show interpret ((mkOp .SUB 8192 0).value.toNat) = .ok (mkOp .SUB 0 0) by decide] at h
  simp [mkOp] at h

/-- C2 (amended): for every of the thirteen opcodes and all operand values
below 2^13 (a 12-bit value plus the ref bit, the range the Operand type
represents), decoding the assembled instruction's 32-bit value reproduces the
original instruction — its mnemonic, lo operand and hi operand. -/
theorem encode_decode_roundtrip (c : OpClass) (lo hi : Nat)
    (hlo : lo < 2 ^ 13) (hhi : hi < 2 ^ 13) :
    interpret ((mkOp c (lo : Int) (hi : Int)).value.toNat) =
      .ok (mkOp c (lo : Int) (hi : Int)) ∧
    (mkOp c (lo : Int) (hi : Int)).mneumonic = MNEUMONIC c := by
  have hB : OPCODE c ≤ 12 := OPCODE_le_12 c
  have e13 : (2 : Nat) ^ 13 = 8192 := by norm_num
  have hlo' : lo < 8192 := e13 ▸ hlo
  have hhi' : hi < 8192 := e13 ▸ hhi
  have hval : (mkOp c (lo : Int) (hi : Int)).value.toNat
      = OPCODE c * 2 ^ 28 + lo * 2 ^ 14 + hi := by
    show ((OPCODE c : Int) * 2 ^ 28 + (lo : Int) * 2 ^ 14 + (hi : Int)).toNat = _
    have hcast : (OPCODE c : Int) * 2 ^ 28 + (lo : Int) * 2 ^ 14 + (hi : Int)
        = ((OPCODE c * 2 ^ 28 + lo * 2 ^ 14 + hi : Nat) : Int) := by
      push_cast
      ring
    rw [hcast, Int.toNat_natCast]
  have e28 : (2 : Nat) ^ 28 = 268435456 := by norm_num
  have e14 : (2 : Nat) ^ 14 = 16384 := by norm_num
  have hins : ((OPCODE c * 2 ^ 28 + lo * 2 ^ 14 + hi) &&& (2 ^ 32 - 2 ^ 28)) >>> 28
      = OPCODE c := by
    rw [and_shiftRight_distrib]
    have hm : ((2 : Nat) ^ 32 - 2 ^ 28) >>> 28 = 15 := by
      norm_num [Nat.shiftRight_eq_div_pow]
    rw [hm]
    have h15 := Nat.and_pow_two_sub_one_eq_mod
      ((OPCODE c * 2 ^ 28 + lo * 2 ^ 14 + hi) >>> 28) 4
    have e4 : (2 : Nat) ^ 4 - 1 = 15 := by norm_num
    have e4' : (2 : Nat) ^ 4 = 16 := by norm_num
    rw [e4, e4'] at h15
    rw [h15, Nat.shiftRight_eq_div_pow, e28, e14]
    omega
  have hlof : ((OPCODE c * 2 ^ 28 + lo * 2 ^ 14 + hi) &&& (2 ^ 28 - 2 ^ 14)) >>> 14
      = lo := by
    rw [and_shiftRight_distrib]
    have hm : ((2 : Nat) ^ 28 - 2 ^ 14) >>> 14 = 16383 := by
      norm_num [Nat.shiftRight_eq_div_pow]
    rw [hm]
    have h14' := Nat.and_pow_two_sub_one_eq_mod
      ((OPCODE c * 2 ^ 28 + lo * 2 ^ 14 + hi) >>> 14) 14
    have e14a : (2 : Nat) ^ 14 - 1 = 16383 := by norm_num
    rw [e14a] at h14'
    rw [h14', Nat.shiftRight_eq_div_pow, e28, e14]
    omega
  have hhif : (OPCODE c * 2 ^ 28 + lo * 2 ^ 14 + hi) &&& (2 ^ 14 - 2 ^ 0) = hi := by
    have e0 : (2 : Nat) ^ 14 - 2 ^ 0 = 2 ^ 14 - 1 := by norm_num
    rw [e0, Nat.and_pow_two_sub_one_eq_mod, e28, e14]
    omega
  refine ⟨?_, rfl⟩
  rw [hval]
  unfold interpret
  simp only [hins, hlof, hhif, opcodeTable_OPCODE]
  rw [operandInt_OperandMk, operandInt_OperandMk, Nat.mod_eq_of_lt hlo, Nat.mod_eq_of_lt hhi]

/-- Witness for the amended C2 at ADD with operands 5 and 7. -/
theorem encode_decode_roundtrip_witness :
    interpret ((mkOp .ADD ((5 : Nat) : Int) ((7 : Nat) : Int)).value.toNat) =
      .ok (mkOp .ADD ((5 : Nat) : Int) ((7 : Nat) : Int)) :=
  (encode_decode_roundtrip .ADD 5 7 (by norm_num) (by norm_num)).1

/-! ## C1: the run loop stops only via SegmentationFault, or cleanly on HLT -/

theorem tick_exec_ok (m : Memory) (i : Instr) (m1 : Memory)
    (hf : fetchDecode m = .ok i) (hexec : i.execute m = .ok m1) :
    tick m = if (memLen m1 : Int) < m1.ptr + 1 then .fault .segmentationFault
      else .next { m1 with ptr := m1.ptr + 1 } := by
  simp only [tick, hf, hexec]
  rfl

theorem tick_exec_term (m : Memory) (i : Instr)
    (hf : fetchDecode m = .ok i) (hexec : i.execute m = .term) :
    tick m = .terminate := by
  simp only [tick, hf, hexec]

/-- C1: at every step of the run loop, if the fetched instruction is HLT the
run stops cleanly via Terminate, with no SegmentationFault and no bounds check
at all; and if the instruction executes without a Terminate or other fault,
the loop raises SegmentationFault exactly when the program counter exceeds the
memory length after the post-execute increment — otherwise it schedules the
next tick, so a program with no HLT and no other fault stops only via
SegmentationFault. -/
theorem run_stops_only_segfault_or_halt (m : Memory) (i : Instr)
    (hf : fetchDecode m = .ok i) :
    (i.cls = OpClass.HLT → tick m = .terminate ∧ ∀ e, tick m ≠ .fault e) ∧
    (∀ m1, i.execute m = .ok m1 →
      (tick m = .fault .segmentationFault ↔ (memLen m1 : Int) < m1.ptr + 1) ∧
      (m1.ptr + 1 ≤ (memLen m1 : Int) → tick m = .next { m1 with ptr := m1.ptr + 1 }) ∧
      (∀ e, tick m = .fault e → e = .segmentationFault)) := by
  constructor
  · intro hc
    have hterm : tick m = .terminate :=
      tick_exec_term m i hf (by simp only [Instr.execute, hc])
    refine ⟨hterm, fun e he => ?_⟩
    rw [hterm] at he
    cases he
  · intro m1 hexec
    have ht := tick_exec_ok m i m1 hf hexec
    by_cases hlen : (memLen m1 : Int) < m1.ptr + 1
    · rw [ht, if_pos hlen]
      refine ⟨⟨fun _ => hlen, fun _ => rfl⟩, fun hle => absurd hlen (not_lt.2 hle), ?_⟩
      intro e he
      injection he with h
      exact h.symm
    · rw [ht, if_neg hlen]
      refine ⟨⟨fun h => (by cases h), fun hc => absurd hc hlen⟩, fun _ => rfl, ?_⟩
      intro e he
      cases he

/-- Witness for C1: a memory whose program cell at the initial pointer holds
the encoded HLT; the tick terminates cleanly. -/
theorem run_stops_only_segfault_or_halt_witness :
    tick ⟨[(33, 12 * 2 ^ 28)], 33⟩ = .terminate :=
  ((run_stops_only_segfault_or_halt ⟨[(33, 12 * 2 ^ 28)], 33⟩ (mkOp .HLT 0 0)
    (by decide)).1 rfl).1

/-! ## C8: the output device poll (corrected: Python chr fails at or above
0x110000) -/

/-- Counterexample to C8 as stated: with the word 1114112 = 0x110000 at
address 0, the poll's flush fails (chr raises ValueError), so no character is
appended to the output stream. -/
theorem device_poll_counterexample :
    (listenPoll ⟨[(0, 1114112)], 33⟩).2 = .error .valueError ∧
    (listenPoll ⟨[(0, 1114112)], 33⟩).2 ≠ .ok [1114112] := by
  exact ⟨by decide, by decide⟩

/-- C8 (amended): a poll that reads a nonzero word v below 0x110000 at
address 0 emits exactly the character with code point v and resets address 0
to 0, leaving every other cell unchanged; a poll that reads a nonzero v at or
above 0x110000 still resets address 0 but its flush fails instead of emitting
a character; a poll that reads 0 emits nothing and changes no memory cell. -/
theorem device_poll_semantics (m : Memory) :
    (memRead m 0 ≠ 0 → memRead m 0 < 1114112 →
      (listenPoll m).2 = .ok [memRead m 0] ∧
      memRead (listenPoll m).1 0 = 0 ∧
      ∀ a, a ≠ 0 → memRead (listenPoll m).1 a = memRead m a) ∧
    (memRead m 0 ≠ 0 → 1114112 ≤ memRead m 0 →
      (listenPoll m).2 = .error .valueError ∧ memRead (listenPoll m).1 0 = 0) ∧
    (memRead m 0 = 0 → listenPoll m = (m, .ok [])) := by
  have hw : memWrite m 0 0 = .ok { m with ram := (0, 0) :: m.ram } := by
    simp [memWrite]
  by_cases h0 : memRead m 0 = 0
  · refine ⟨fun hc => absurd h0 hc, fun hc => absurd h0 hc, fun _ => ?_⟩
    unfold listenPoll
    rw [if_neg (by omega)]
    rfl
  · by_cases hbig : memRead m 0 < 1114112
    · have hl : listenPoll m = ({ m with ram := (0, 0) :: m.ram }, pyFlush [memRead m 0]) := by
        unfold listenPoll
        rw [if_pos h0, hw]
      have hchr : pyChr (memRead m 0) = .ok (memRead m 0) := by
        unfold pyChr
        rw [if_pos hbig]
      have hfl : pyFlush [memRead m 0] = .ok [memRead m 0] := by
        unfold pyFlush
        rw [hchr]
        rfl
      refine ⟨fun _ _ => ⟨?_, ?_, ?_⟩, fun _ hge => by omega, fun hc => absurd hc h0⟩
      · rw [hl]
        exact hfl
      · rw [hl]
        exact memRead_cons_self m.ram m.ptr 0 0
      · intro a ha
        rw [hl]
        exact memRead_cons_ne m.ram m.ptr m.ptr 0 a 0 (fun hc => ha hc.symm)
    · have hl : listenPoll m = ({ m with ram := (0, 0) :: m.ram }, pyFlush [memRead m 0]) := by
        unfold listenPoll
        rw [if_pos h0, hw]
      have hchr : pyChr (memRead m 0) = .error .valueError := by
        unfold pyChr
        rw [if_neg hbig]
      have hfl : pyFlush [memRead m 0] = .error .valueError := by
        unfold pyFlush
        rw [hchr]
      refine ⟨fun _ hlt => absurd hlt hbig, fun _ _ => ⟨?_, ?_⟩, fun hc => absurd hc h0⟩
      · rw [hl]
        exact hfl
      · rw [hl]
        exact memRead_cons_self m.ram m.ptr 0 0

/-- Witness for the amended C8: the spec's device-echo example, code point 65
for the character A. -/
theorem device_poll_semantics_witness :
    (listenPoll ⟨[(0, 65)], 33⟩).2 = .ok [65] ∧
    memRead (listenPoll ⟨[(0, 65)], 33⟩).1 0 = 0 :=
  ⟨((device_poll_semantics ⟨[(0, 65)], 33⟩).1 (by decide) (by decide)).1,
   ((device_poll_semantics ⟨[(0, 65)], 33⟩).1 (by decide) (by decide)).2.1⟩

/-! ## Helper lemmas for the assembler claims -/

theorem assocLookup_append {β : Type} (a b : List (List Char × β)) (n : List Char) :
    assocLookup (a ++ b) n = (match assocLookup a n with
      | some v => some v
      | none => assocLookup b n) := by
  induction a with
  | nil => rfl
  | cons kv rest ih =>
    obtain ⟨k, v⟩ := kv
    by_cases h : k = n
    · simp [assocLookup, h]
    · simp [assocLookup, h, ih]

theorem findLabelsAux_prefix : ∀ (ls : List (List Char)) (i : Nat) (acc labels),
    findLabelsAux i acc ls = .ok labels → ∃ ex, labels = acc ++ ex := by
  intro ls
  induction ls with
  | nil =>
    intro i acc labels h
    simp only [findLabelsAux] at h
    injection h with h
    exact ⟨[], by rw [← h, List.append_nil]⟩
  | cons l ls ih =>
    intro i acc labels h
    simp only [findLabelsAux] at h
    by_cases hl : isLabelLine l
    · rw [if_pos hl] at h
      by_cases hdup : (assocLookup acc (parseLabel l)).isSome = true
      · rw [if_pos hdup] at h
        cases h
      · rw [if_neg hdup] at h
        obtain ⟨ex, hex⟩ := ih (i + 1) (acc ++ [(parseLabel l, i + ADDR_PRG)]) labels h
        refine ⟨(parseLabel l, i + ADDR_PRG) :: ex, ?_⟩
        rw [hex, List.append_assoc]
        rfl
    · rw [if_neg hl] at h
      exact ih (i + 1) acc labels h

theorem findLabelsAux_acc_clash : ∀ (ls : List (List Char)) (i : Nat) (acc labels),
    findLabelsAux i acc ls = .ok labels →
    ∀ (j : Nat) (l : List Char), ls[j]? = some l → isLabelLine l = true →
      assocLookup acc (parseLabel l) = none := by
  intro ls
  induction ls with
  | nil =>
    intro i acc labels h j l hj hlab
    rw [List.getElem?_nil] at hj
    cases hj
  | cons l0 ls ih =>
    intro i acc labels h j l hj hlab
    simp only [findLabelsAux] at h
    by_cases hl0 : isLabelLine l0
    · rw [if_pos hl0] at h
      by_cases hdup : (assocLookup acc (parseLabel l0)).isSome = true
      · rw [if_pos hdup] at h
        cases h
      · rw [if_neg hdup] at h
        cases j with
        | zero =>
          rw [List.getElem?_cons_zero] at hj
          injection hj with hj
          subst hj
          exact Option.not_isSome_iff_eq_none.1 (by simpa using hdup)
        | succ j' =>
          rw [List.getElem?_cons_succ] at hj
          have hnone := ih (i + 1) (acc ++ [(parseLabel l0, i + ADDR_PRG)]) labels h j' l hj hlab
          rw [assocLookup_append] at hnone
          cases hacc : assocLookup acc (parseLabel l) with
          | none => rfl
          | some v =>
            rw [hacc] at hnone
            cases hnone
    · rw [if_neg hl0] at h
      cases j with
      | zero =>
        rw [List.getElem?_cons_zero] at hj
        injection hj with hj
        subst hj
        rw [hlab] at hl0
        exact absurd rfl hl0
      | succ j' =>
        rw [List.getElem?_cons_succ] at hj
        exact ih (i + 1) acc labels h j' l hj hlab

theorem findLabelsAux_lookup : ∀ (ls : List (List Char)) (i : Nat) (acc labels),
    findLabelsAux i acc ls = .ok labels →
    ∀ (j : Nat) (l : List Char), ls[j]? = some l → isLabelLine l = true →
      assocLookup labels (parseLabel l) = some (i + j + ADDR_PRG) := by
  intro ls
  induction ls with
  | nil =>
    intro i acc labels h j l hj hlab
    rw [List.getElem?_nil] at hj
    cases hj
  | cons l0 ls ih =>
    intro i acc labels h j l hj hlab
    simp only [findLabelsAux] at h
    by_cases hl0 : isLabelLine l0
    · rw [if_pos hl0] at h
      by_cases hdup : (assocLookup acc (parseLabel l0)).isSome = true
      · rw [if_pos hdup] at h
        cases h
      · rw [if_neg hdup] at h
        cases j with
        | zero =>
          rw [List.getElem?_cons_zero] at hj
          injection hj with hj
          subst hj
          obtain ⟨ex, hex⟩ := findLabelsAux_prefix ls (i + 1) _ labels h
          have haccnone : assocLookup acc (parseLabel l0) = none :=
            Option.not_isSome_iff_eq_none.1 (by simpa using hdup)
          rw [hex, List.append_assoc, assocLookup_append, haccnone]
          simp [assocLookup]
        | succ j' =>
          rw [List.getElem?_cons_succ] at hj
          have hres := ih (i + 1) (acc ++ [(parseLabel l0, i + ADDR_PRG)]) labels h j' l hj hlab
          rw [hres]
          simp only [Option.some.injEq]
          omega
    · rw [if_neg hl0] at h
      cases j with
      | zero =>
        rw [List.getElem?_cons_zero] at hj
        injection hj with hj
        subst hj
        rw [hlab] at hl0
        exact absurd rfl hl0
      | succ j' =>
        rw [List.getElem?_cons_succ] at hj
        have hres := ih (i + 1) acc labels h j' l hj hlab
        rw [hres]
        simp only [Option.some.injEq]
        omega

theorem compileLines_ok_spec (labels : List (List Char × Nat)) :
    ∀ (ls : List (List Char)) (insts : List Instr),
      compileLines labels ls = .ok insts →
      insts.length = ls.length ∧
      ∀ (j : Nat) (l : List Char), ls[j]? = some l → isLabelLine l = true →
        insts[j]? = some (mkOp .NUL 0 0) := by
  intro ls
  induction ls with
  | nil =>
    intro insts h
    simp only [compileLines] at h
    injection h with h
    subst h
    exact ⟨rfl, fun j l hj _ => by rw [List.getElem?_nil] at hj; cases hj⟩
  | cons l0 ls ih =>
    intro insts h
    simp only [compileLines] at h
    by_cases hl0 : isLabelLine l0
    · rw [if_pos hl0] at h
      cases hrec : compileLines labels ls with
      | error e =>
        rw [hrec] at h
        cases h
      | ok rest =>
        rw [hrec] at h
        injection h with h
        subst h
        obtain ⟨hlen, hidx⟩ := ih rest hrec
        refine ⟨by simp [hlen], ?_⟩
        intro j l hj hlab
        cases j with
        | zero => exact List.getElem?_cons_zero
        | succ j' =>
          rw [List.getElem?_cons_succ] at hj
          rw [List.getElem?_cons_succ]
          exact hidx j' l hj hlab
    · by_cases hop : isOpcodeLine l0
      · rw [if_neg hl0, if_pos hop] at h
        cases hp : parseOpcode labels l0 with
        | error e =>
          rw [hp] at h
          cases h
        | ok op =>
          rw [hp] at h
          cases hrec : compileLines labels ls with
          | error e =>
            rw [hrec] at h
            cases h
          | ok rest =>
            rw [hrec] at h
            injection h with h
            subst h
            obtain ⟨hlen, hidx⟩ := ih rest hrec
            refine ⟨by simp [hlen], ?_⟩
            intro j l hj hlab
            cases j with
            | zero =>
              rw [List.getElem?_cons_zero] at hj
              injection hj with hj
              subst hj
              rw [hlab] at hl0
              exact absurd rfl hl0
            | succ j' =>
              rw [List.getElem?_cons_succ] at hj
              rw [List.getElem?_cons_succ]
              exact hidx j' l hj hlab
      · rw [if_neg hl0, if_neg hop] at h
        cases h

theorem compileLines_not_ok (labels : List (List Char × Nat)) :
    ∀ (ls : List (List Char)),
      (∃ l, l ∈ ls ∧ isLabelLine l = false ∧ isOpcodeLine l = false) →
      ∀ insts, compileLines labels ls ≠ .ok insts := by
  intro ls
  induction ls with
  | nil =>
    rintro ⟨l, hl, -, -⟩ insts
    exact absurd hl (List.not_mem_nil l)
  | cons l0 ls ih =>
    rintro ⟨l, hl, hnl, hno⟩ insts h
    simp only [compileLines] at h
    rcases List.mem_cons.1 hl with rfl | hmem
    · rw [if_neg (by simp [hnl]), if_neg (by simp [hno])] at h
      cases h
    · by_cases hl0 : isLabelLine l0
      · rw [if_pos hl0] at h
        cases hrec : compileLines labels ls with
        | error e =>
          rw [hrec] at h
          cases h
        | ok rest => exact ih ⟨l, hmem, hnl, hno⟩ rest hrec
      · by_cases hop : isOpcodeLine l0
        · rw [if_neg hl0, if_pos hop] at h
          cases hp : parseOpcode labels l0 with
          | error e =>
            rw [hp] at h
            cases h
          | ok op =>
            rw [hp] at h
            cases hrec : compileLines labels ls with
            | error e =>
              rw [hrec] at h
              cases h
            | ok rest => exact ih ⟨l, hmem, hnl, hno⟩ rest hrec
        · rw [if_neg hl0, if_neg hop] at h
          cases h

theorem compileLines_first_bad (labels : List (List Char × Nat)) :
    ∀ (pre : List (List Char)) (bad : List Char) (post : List (List Char)),
      isLabelLine bad = false → isOpcodeLine bad = false →
      (∀ l, l ∈ pre → isLabelLine l = true ∨
        (isOpcodeLine l = true ∧ ∃ op, parseOpcode labels l = .ok op)) →
      compileLines labels (pre ++ bad :: post) = .error (.unrecognizedInstruction bad) := by
  intro pre
  induction pre with
  | nil =>
    intro bad post hnl hno _
    simp only [List.nil_append, compileLines]
    rw [if_neg (by simp [hnl]), if_neg (by simp [hno])]
  | cons l0 pre ih =>
    intro bad post hnl hno hpre
    have hih := ih bad post hnl hno (fun l hl => hpre l (List.mem_cons_of_mem l0 hl))
    rw [show (l0 :: pre) ++ bad :: post = l0 :: (pre ++ bad :: post) from rfl]
    simp only [compileLines]
    by_cases hl0 : isLabelLine l0
    · rw [if_pos hl0]
      rw [hih]
    · rcases hpre l0 (List.mem_cons_self l0 pre) with hl | ⟨hop, op, hpop⟩
      · exact absurd hl hl0
      · rw [if_neg hl0, if_pos hop, hpop, hih]

theorem splitOnChar_not_mem (sep : Char) :
    ∀ l : List Char, sep ∉ l → splitOnChar sep l = [l] := by
  intro l
  induction l with
  | nil => intro _; rfl
  | cons c cs ih =>
    intro h
    have hc : ¬(c = sep) := fun hc => h (hc ▸ List.mem_cons_self c cs)
    have hcs : sep ∉ cs := fun hm => h (List.mem_cons_of_mem c hm)
    simp only [splitOnChar, ih hcs]
    rw [if_neg hc]

theorem dropWhile_eq_self_of_none (p : Char → Bool) (l : List Char)
    (h : ∀ c ∈ l, p c = false) : l.dropWhile p = l := by
  cases l with
  | nil => rfl
  | cons x xs => simp [List.dropWhile_cons, h x (List.mem_cons_self x xs)]

theorem stripChars_eq_self (l : List Char) (h : ∀ c ∈ l, isPySpace c = false) :
    stripChars l = l := by
  unfold stripChars
  rw [dropWhile_eq_self_of_none _ _ h]
  rw [dropWhile_eq_self_of_none _ _ (fun c hc => h c (List.mem_reverse.1 hc))]
  exact List.reverse_reverse l

theorem alpha_not_digit (c : Char) (h : c.isAlpha = true) : c.isDigit = false := by
  unfold Char.isAlpha Char.isUpper Char.isLower at h
  unfold Char.isDigit
  simp only [Bool.or_eq_true, Bool.and_eq_true, decide_eq_true_eq] at h
  by_contra hd
  rw [Bool.not_eq_false, Bool.and_eq_true] at hd
  obtain ⟨hd1, hd2⟩ := hd
  rw [decide_eq_true_eq] at hd1 hd2
  have hd2' : c.val.toNat ≤ 57 := UInt32.toNat_le_of_le (by norm_num) hd2
  rcases h with ⟨h1, h2⟩ | ⟨h1, h2⟩
  · have h1' : 65 ≤ c.val.toNat := UInt32.le_toNat_of_le (by norm_num) h1
    omega
  · have h1' : 97 ≤ c.val.toNat := UInt32.le_toNat_of_le (by norm_num) h1
    omega

theorem isPyIdent_chars (l : List Char) (h : isPyIdent l = true) :
    ∀ c ∈ l, (c.isAlpha || c.isDigit || c = '_') = true := by
  cases l with
  | nil => cases h
  | cons c0 cs =>
    simp only [isPyIdent, Bool.and_eq_true] at h
    obtain ⟨h0, hall⟩ := h
    intro c hc
    rcases List.mem_cons.1 hc with rfl | hmem
    · rcases (by simpa using h0 : c.isAlpha = true ∨ c = '_') with ha | hu
      · simp [ha]
      · simp [hu]
    · exact List.all_eq_true.1 hall c hmem

theorem ident_not_space (c : Char) (h : (c.isAlpha || c.isDigit || c = '_') = true) :
    isPySpace c = false := by
  cases hsp : isPySpace c
  · rfl
  · exfalso
    unfold isPySpace at hsp
    simp only [Bool.or_eq_true, decide_eq_true_eq] at hsp
    rcases hsp with ((((h1 | h2) | h3) | h4) | h5) | h6 <;> subst_vars <;>
      exact absurd h (by decide)

theorem evalExpr_ident (labels : List (List Char × Nat)) (t : List Char)
    (h : isPyName t = true) :
    evalExpr labels t = (match assocLookup labels t with
      | some a => .ok (a : Int)
      | none => .error (.nameError t)) := by
  have hid : isPyIdent t = true := by
    simp only [isPyName, Bool.and_eq_true] at h
    exact h.1
  have hmem : ¬ t ∈ pyKeywords := by
    simp only [isPyName, Bool.and_eq_true] at h
    simpa using h.2
  have htrue : ¬ (t = "True".data) := fun he => hmem (by rw [he]; decide)
  have hfalse : ¬ (t = "False".data) := fun he => hmem (by rw [he]; decide)
  have hspace : ∀ c ∈ t, isPySpace c = false := fun c hc =>
    ident_not_space c (isPyIdent_chars t hid c hc)
  have hstrip : stripChars t = t := stripChars_eq_self t hspace
  have hdig : (!t.isEmpty && t.all Char.isDigit) = false := by
    cases t with
    | nil => cases hid
    | cons c0 cs =>
      simp only [isPyIdent, Bool.and_eq_true] at hid
      obtain ⟨h0, -⟩ := hid
      have hd0 : c0.isDigit = false := by
        rcases (by simpa using h0 : c0.isAlpha = true ∨ c0 = '_') with ha | hu
        · exact alpha_not_digit c0 ha
        · have hc0 : c0 = '_' := by simpa using hu
          rw [hc0]
          rfl
      simp [List.all_cons, hd0]
  simp only [evalExpr, hstrip, hdig, Bool.false_eq_true, if_false]
  rw [if_neg htrue, if_neg hfalse, if_pos h]

/-! ## C6: label addresses (corrected: a hyphenated or reserved-keyword label
name cannot be referenced by an operand expression) -/

/-- Counterexample to C6 as stated: the label regex admits the names `a-b` and
`if`, and find_labels maps each to address 33; but the operand expression
`a-b` referencing the first is parsed by the expression evaluator as a
subtraction, and `if` is a reserved keyword the evaluator refuses
(SyntaxError), so neither evaluates to the label's address 33 and both
programs fail to assemble. -/
theorem label_reference_counterexample :
    prepare "a-b:\nJMP a-b".data = ["a-b:".data, "JMP a-b".data] ∧
    isLabelLine "a-b:".data = true ∧
    findLabels (prepare "a-b:\nJMP a-b".data) = .ok [("a-b".data, 33)] ∧
    parseLabel "a-b:".data = "a-b".data ∧
    evalExpr [("a-b".data, 33)] "a-b".data ≠ .ok ((33 : Nat) : Int) ∧
    (∀ insts, compile "a-b:\nJMP a-b".data ≠ .ok insts) ∧
    isLabelLine "if:".data = true ∧
    findLabels (prepare "if:\nJMP if".data) = .ok [("if".data, 33)] ∧
    evalExpr [("if".data, 33)] "if".data = .error (.syntaxError "if".data) ∧
    (∀ insts, compile "if:\nJMP if".data ≠ .ok insts) := by
  refine ⟨by decide, by decide, by decide, by decide, by decide, ?_, by decide, by decide,
    by decide, ?_⟩
  · intro insts h
    rw [show compile "a-b:\nJMP a-b".data = .error (.syntaxError "a-b".data) from by decide] at h
    cases h
  · intro insts h
    rw [show compile "if:\nJMP if".data = .error (.syntaxError "if".data) from by decide] at h
    cases h

/-- C6 (amended): over the filtered lines, each label defined on line i is
mapped to address 33 + i; when compilation succeeds the label line occupies
instruction slot i as a NUL and the instruction list has one slot per filtered
line; an operand expression consisting of the bare label name evaluates to
33 + i provided the name is an identifier and not a reserved keyword (a
hyphenated name parses as a subtraction and a keyword is refused by the
evaluator, so such labels cannot be referenced); and two label lines with the
same name make the whole assembly fail. -/
theorem label_addresses (p : List Char) (lines : List (List Char))
    (hp : lines = prepare p) :
    (∀ labels, findLabels lines = .ok labels →
      ∀ (i : Nat) (l : List Char), lines[i]? = some l → isLabelLine l = true →
        assocLookup labels (parseLabel l) = some (33 + i) ∧
        (∀ insts, compileLines labels lines = .ok insts →
          insts.length = lines.length ∧ insts[i]? = some (mkOp .NUL 0 0)) ∧
        (isPyName (parseLabel l) = true →
          evalExpr labels (parseLabel l) = .ok ((33 + i : Nat) : Int))) ∧
    (∀ (i j : Nat) (li lj : List Char), i ≠ j → lines[i]? = some li →
      lines[j]? = some lj → isLabelLine li = true → isLabelLine lj = true →
      parseLabel li = parseLabel lj → ∀ insts, compile p ≠ .ok insts) := by
  constructor
  · intro labels hfind i l hi hlab
    have hlook := findLabelsAux_lookup lines 0 [] labels hfind i l hi hlab
    have hlook' : assocLookup labels (parseLabel l) = some (33 + i) := by
      rw [hlook]
      simp only [Option.some.injEq, ADDR_PRG]
      omega
    refine ⟨hlook', ?_, ?_⟩
    · intro insts hc
      obtain ⟨hlen, hidx⟩ := compileLines_ok_spec labels lines insts hc
      exact ⟨hlen, hidx i l hi hlab⟩
    · intro hident
      rw [evalExpr_ident labels _ hident, hlook']
  · intro i j li lj hne hi hj hli hlj hname insts hc
    simp only [compile] at hc
    rw [← hp] at hc
    cases hfind : findLabels lines with
    | error e =>
      rw [hfind] at hc
      cases hc
    | ok labels =>
      have h1 := findLabelsAux_lookup lines 0 [] labels hfind i li hi hli
      have h2 := findLabelsAux_lookup lines 0 [] labels hfind j lj hj hlj
      rw [hname] at h1
      rw [h1] at h2
      injection h2 with h2
      exact hne (by omega)

/-- Witness for the amended C6 at the program with one label line `loop:`
followed by `JMP loop`. -/
theorem label_addresses_witness :
    assocLookup [("loop".data, 33)] (parseLabel "loop:".data) = some (33 + 0) ∧
    evalExpr [("loop".data, 33)] (parseLabel "loop:".data) = .ok ((33 + 0 : Nat) : Int) :=
  have h := (label_addresses "loop:\nJMP loop".data (prepare "loop:\nJMP loop".data) rfl).1
    [("loop".data, 33)] (by decide) 0 "loop:".data (by decide) (by decide)
  ⟨h.1, h.2.2 (by decide)⟩

/-! ## C7: unrecognized lines abort assembly (corrected: an earlier
duplicate-label failure or operand-evaluation failure preempts the
UnrecognizedInstruction error) -/

/-- Counterexample to C7 as stated: this program contains the filtered line
`XYZ 1`, which is neither a label nor an opcode line, yet compile fails with
the duplicate-label assertion of find_labels, not with
UnrecognizedInstruction for that line. -/
theorem unrecognized_line_counterexample :
    "XYZ 1".data ∈ prepare "a:\na:\nXYZ 1".data ∧
    isLabelLine "XYZ 1".data = false ∧
    isOpcodeLine "XYZ 1".data = false ∧
    compile "a:\na:\nXYZ 1".data = .error (.duplicateLabel "a".data) ∧
    compile "a:\na:\nXYZ 1".data ≠ .error (.unrecognizedInstruction "XYZ 1".data) := by
  exact ⟨by decide, by decide, by decide, by decide, by decide⟩

/-- C7 (amended): for every source program one of whose filtered lines is
neither a label definition nor a recognized mnemonic line, compile never
returns an instruction list (assembly never partially succeeds); and when
label discovery succeeds and every earlier line is a label or an opcode line
whose operands evaluate, the failure is UnrecognizedInstruction carrying the
first offending line's text. -/
theorem compile_fails_on_unrecognized (p : List Char) (pre post : List (List Char))
    (bad : List Char) (hsplit : prepare p = pre ++ bad :: post)
    (hbad1 : isLabelLine bad = false) (hbad2 : isOpcodeLine bad = false) :
    (∀ insts, compile p ≠ .ok insts) ∧
    (∀ labels, findLabels (prepare p) = .ok labels →
      (∀ l, l ∈ pre → isLabelLine l = true ∨
        (isOpcodeLine l = true ∧ ∃ op, parseOpcode labels l = .ok op)) →
      compile p = .error (.unrecognizedInstruction bad)) := by
  have hmem : bad ∈ prepare p := by
    rw [hsplit]
    exact List.mem_append.2 (Or.inr (List.mem_cons_self bad post))
  constructor
  · intro insts hc
    simp only [compile] at hc
    cases hfind : findLabels (prepare p) with
    | error e =>
      rw [hfind] at hc
      cases hc
    | ok labels =>
      simp only [hfind] at hc
      exact compileLines_not_ok labels (prepare p) ⟨bad, hmem, hbad1, hbad2⟩ insts hc
  · intro labels hfind hpre
    simp only [compile, hfind]
    rw [hsplit]
    exact compileLines_first_bad labels pre bad post hbad1 hbad2 hpre

/-- Witness for the amended C7 at the one-line program `XYZ 1`. -/
theorem compile_fails_on_unrecognized_witness :
    compile "XYZ 1".data = .error (.unrecognizedInstruction "XYZ 1".data) :=
  (compile_fails_on_unrecognized "XYZ 1".data [] [] "XYZ 1".data (by decide) (by decide)
    (by decide)).2 [] (by decide) (fun l hl => absurd hl (List.not_mem_nil l))

/-! ## C10: no operand-arity checking -/

theorem mnemTable_lookup (c : OpClass) :
    assocLookup mnemTable (MNEUMONIC c).data = some c := by
  cases c <;> rfl

theorem mnem_data_length (c : OpClass) : (MNEUMONIC c).data.length = 3 := by
  cases c <;> rfl

theorem stripChars_space_cons (l : List Char) : stripChars (' ' :: l) = stripChars l := by
  unfold stripChars
  rw [List.dropWhile_cons, if_pos (by decide : isPySpace ' ' = true)]

theorem parse_single_operand (c : OpClass) (labels : List (List Char × Nat))
    (arg : List Char) (v : Int) (htrim : stripChars arg = arg) (hne : arg ≠ [])
    (hnc : ',' ∉ arg) (hev : evalExpr labels arg = .ok v) :
    parseOpcode labels ((MNEUMONIC c).data ++ ' ' :: arg) = .ok (mkOp c v 0) := by
  have htake : ((MNEUMONIC c).data ++ ' ' :: arg).take 3 = (MNEUMONIC c).data := by
    rw [← mnem_data_length c]
    exact List.take_left _ _
  have hdrop : ((MNEUMONIC c).data ++ ' ' :: arg).drop 3 = ' ' :: arg := by
    rw [← mnem_data_length c]
    exact List.drop_left _ _
  have hargs : stripChars (' ' :: arg) = arg := by rw [stripChars_space_cons, htrim]
  have hempty : arg.isEmpty = false := by
    cases arg with
    | nil => exact absurd rfl hne
    | cons _ _ => rfl
  simp only [parseOpcode, htake, hdrop, hargs, mnemTable_lookup, hempty,
    splitOnChar_not_mem ',' arg hnc, hev, Bool.false_eq_true, if_false]

/-- C10: a bare known mnemonic line compiles with both operands defaulting to
0 (a bare ADD compiles to ADD 0,0), and a known mnemonic line given a single
operand compiles with hi = 0 — the assembler never rejects a line for its
operand count. -/
theorem no_arity_checking (c : OpClass) :
    compile (MNEUMONIC c).data = .ok [mkOp c 0 0] ∧
    (∀ (labels : List (List Char × Nat)) (arg : List Char) (v : Int),
      stripChars arg = arg → arg ≠ [] → ',' ∉ arg →
      evalExpr labels arg = .ok v →
      parseOpcode labels ((MNEUMONIC c).data ++ ' ' :: arg) = .ok (mkOp c v 0)) := by
  refine ⟨?_, fun labels arg v ht hn hc he => parse_single_operand c labels arg v ht hn hc he⟩
  cases c <;> decide

/-- Witness for C10 at a bare ADD and at `ADD 5`. -/
theorem no_arity_checking_witness :
    compile (MNEUMONIC .ADD).data = .ok [mkOp .ADD 0 0] ∧
    parseOpcode [] ((MNEUMONIC .ADD).data ++ ' ' :: "5".data) = .ok (mkOp .ADD 5 0) :=
  ⟨(no_arity_checking .ADD).1,
   (no_arity_checking .ADD).2 [] "5".data 5 (by decide) (by decide) (by decide) (by decide)⟩

end Lrc
